import Mathlib

/-!
# Verification of the `rads` strict Fibonacci heap engine

Shallow embedding of `src/heap/sfib.rs` and (for the list claims) of
`src/util/cyclic_list.rs`.

The Rust code shares nodes through `Rc<RefCell<Node>>`, shares activity
flags through `Rc<Cell<bool>>` and shares fix-list entries through
`CyclicList<Fix>`.  We model the shared mutable store explicitly as three
arenas addressed by stable indices (`Nat`): a node arena, a flag arena and
a fix-entry arena.  `Rc::ptr_eq` becomes index equality.  `Option<...>`
pointers stay `Option Nat`.  Code that panics (`unwrap` on `None`,
`unimplemented!()`, reads of uninitialized memory) is modelled with
`Option`: `none` is a panic.  Keys are `Int` (the code is generic over
`K : Ord`; every claim uses integer keys).  The `val : V` payload carries
no structure used by any claim and is omitted from `Node`.
-/

/-- `RankDesc<K, V>`: a concrete rank, a pointer into the fix list, or
unset (`RankDesc::None` in the source). -/
inductive RankDesc where
  | Rank : Nat → RankDesc
  | Fix : Nat → RankDesc
  | None : RankDesc
deriving DecidableEq, Repr, Inhabited

/-- `struct Fix<K, V> { node: NodePtr<K, V>, rank: usize }` — a fix-list
entry pairing a node index with the rank it is recorded under. -/
structure FixEntry where
  node : Nat
  rank : Nat
deriving DecidableEq, Repr, Inhabited

/-- `struct Node<K, V>`: key, optional shared activity flag (an index into
the flag arena), rank descriptor, loss counter, optional parent pointer and
the `VecDeque` of children (front of the deque = head of the list). -/
structure Node where
  key : Int
  active : Option Nat
  rank : RankDesc
  loss : Nat
  parent : Option Nat
  children : List Nat
deriving DecidableEq, Repr

instance : Inhabited Node :=
  ⟨{ key := 0, active := none, rank := RankDesc.None, loss := 0, parent := none, children := [] }⟩

/-- The shared mutable store: the three arenas behind all `Rc` pointers. -/
structure Store where
  nodes : List Node
  flags : List Bool
  fixes : List FixEntry
deriving DecidableEq, Repr, Inhabited

def emptyStore : Store := { nodes := [], flags := [], fixes := [] }

def Store.getNode (st : Store) (i : Nat) : Node := st.nodes.getD i default

def Store.setNode (st : Store) (i : Nat) (n : Node) : Store :=
  { st with nodes := st.nodes.set i n }

def Store.getFlag (st : Store) (f : Nat) : Bool := st.flags.getD f false

def Store.setFlag (st : Store) (f : Nat) (b : Bool) : Store :=
  { st with flags := st.flags.set f b }

def Store.getFix (st : Store) (i : Nat) : FixEntry := st.fixes.getD i default

/-! ## Basic list-arena lemmas -/

theorem getD_set_eq_ite {α : Type} (l : List α) (i j : Nat) (a d : α) :
    (l.set i a).getD j d = if i = j ∧ i < l.length then a else l.getD j d := by
  induction l generalizing i j with
  | nil => simp [List.getD]
  | cons x xs ih =>
    cases i with
    | zero =>
      cases j with
      | zero => simp [List.getD]
      | succ j => simp [List.getD]
    | succ i =>
      cases j with
      | zero => simp [List.getD]
      | succ j =>
        simp only [List.set, List.getD, List.get?, List.length_cons]
        have := ih i j
        simp only [List.getD] at this
        rw [this]
        by_cases hij : i = j
        · subst hij
          by_cases hlen : i < xs.length
          · rw [if_pos ⟨rfl, hlen⟩, if_pos ⟨rfl, by omega⟩]
          · rw [if_neg (by omega), if_neg (by omega)]
        · rw [if_neg (by omega), if_neg (by omega)]

theorem getD_append_lt {α : Type} (l l' : List α) (d : α) (i : Nat)
    (h : i < l.length) : (l ++ l').getD i d = l.getD i d := by
  induction l generalizing i with
  | nil => simp at h
  | cons x xs ih =>
    cases i with
    | zero => simp [List.getD]
    | succ i =>
      simp only [List.cons_append, List.getD, List.get?]
      exact ih i (by simpa using Nat.lt_of_succ_lt_succ h)

theorem getD_append_self {α : Type} (l : List α) (d a : α) :
    (l ++ [a]).getD l.length d = a := by
  induction l with
  | nil => simp [List.getD]
  | cons x xs ih => simp [List.getD, ih]

theorem Store.getNode_setNode (st : Store) (i : Nat) (n : Node) (j : Nat) :
    (st.setNode i n).getNode j =
      if i = j ∧ i < st.nodes.length then n else st.getNode j :=
  getD_set_eq_ite st.nodes i j n default

theorem Store.getNode_setFlag (st : Store) (f : Nat) (b : Bool) (j : Nat) :
    (st.setFlag f b).getNode j = st.getNode j := rfl

theorem Store.length_setNode (st : Store) (i : Nat) (n : Node) :
    (st.setNode i n).nodes.length = st.nodes.length := by
  simp [Store.setNode]

theorem Store.getFlag_setNode (st : Store) (i : Nat) (n : Node) (f : Nat) :
    (st.setNode i n).getFlag f = st.getFlag f := rfl

theorem Store.getFlag_setFlag (st : Store) (f : Nat) (b : Bool) (g : Nat) :
    (st.setFlag f b).getFlag g =
      if f = g ∧ f < st.flags.length then b else st.getFlag g :=
  getD_set_eq_ite st.flags f g b false

theorem Store.getFlag_setFlag_false_self (st : Store) (f : Nat) :
    (st.setFlag f false).getFlag f = false := by
  rw [Store.getFlag_setFlag]
  split
  · rfl
  · rename_i h
    have : ¬ f < st.flags.length := fun hl => h ⟨rfl, hl⟩
    unfold Store.getFlag
    rw [List.getD_eq_default]
    omega

theorem Store.getFlag_setFlag_ne (st : Store) (f : Nat) (b : Bool) (g : Nat)
    (h : f ≠ g) : (st.setFlag f b).getFlag g = st.getFlag g := by
  rw [Store.getFlag_setFlag, if_neg (by tauto)]

/-! ## Node activity model (`impl<K, V> Node<K, V>`) -/

/-- `fn is_active(&self) -> bool { self.active.as_ref().map_or(false, |b| b.get()) }` -/
def Node.is_active (n : Node) (st : Store) : Bool :=
  match n.active with
  | none => false
  | some f => st.getFlag f

/-- `fn is_passive(&self) -> bool { ! self.is_active() }` -/
def Node.is_passive (n : Node) (st : Store) : Bool := ! n.is_active st

/-- `fn is_active_root(&self) -> bool`: `is_active() && parent`, where
`parent` is `true` when there is no parent and otherwise is
`parent.borrow().active.is_none()`. -/
def Node.is_active_root (n : Node) (st : Store) : Bool :=
  let parent : Bool :=
    match n.parent with
    | some p => (st.getNode p).active.isNone
    | none => true
  n.is_active st && parent

/-- `fn is_linkable(&self) -> bool`: every child is passive. -/
def Node.is_linkable (n : Node) (st : Store) : Bool :=
  n.children.all (fun c => (st.getNode c).is_passive st)

/-! ## Claim C4: `is_active` on a flagless node

The spec asserts that a node holding no explicit flag is active by
default.  The code's `map_or(false, ...)` returns `false` for `None`. -/

/-- A freshly created node: `Node::new` sets `active: None`. -/
def flaglessNode : Node :=
  { key := 0, active := none, rank := RankDesc.None, loss := 0,
    parent := none, children := [] }

/-- C4 counterexample: the claim "for every node whose `active` field is
absent, `is_active` returns true" is false at the concrete flagless node:
`is_active` returns `false` there. -/
theorem is_active_flagless_cex :
    flaglessNode.active = none ∧ flaglessNode.is_active emptyStore ≠ true := by
  decide

/-- C4 (amended): for every node whose `active` field is absent,
`is_active` returns `false` — a flagless node is passive; activity
requires a shared flag whose current value is `true`. -/
theorem is_active_flagless (st : Store) (n : Node) (h : n.active = none) :
    n.is_active st = false := by
  unfold Node.is_active
  rw [h]

/-- Witness for the amended C4 theorem at a concrete node. -/
theorem is_active_flagless_witness :
    flaglessNode.active = none ∧ flaglessNode.is_active emptyStore = false :=
  ⟨rfl, is_active_flagless emptyStore flaglessNode rfl⟩

/-! ## Claim C5: `is_active_root`

The spec claims `is_active_root(n) = is_active(n) && (n.parent is none
|| !is_active(n.parent))`.  The code instead tests
`n.parent.active.is_none()`: a parent that *holds* a flag whose current
value is `false` (passive, but flagged) still blocks active-root status. -/

/-- Store for the C5 counterexample: node 0 is the parent, holding flag 1
whose value is `false` (so the parent is passive but flagged); node 1 holds
flag 0 whose value is `true` and has node 0 as parent. -/
def stC5 : Store :=
  { nodes :=
      [{ key := 0, active := some 1, rank := RankDesc.None, loss := 0,
         parent := none, children := [1] },
       { key := 5, active := some 0, rank := RankDesc.None, loss := 0,
         parent := some 0, children := [] }],
    flags := [true, false],
    fixes := [] }

/-- C5 counterexample: node 1 is active, its parent (node 0) is *not*
active, yet `is_active_root` returns `false` — refuting the claimed
equivalence with `is_active(n) && (no parent || !is_active(parent))`,
which would give `true` here. -/
theorem is_active_root_cex :
    (stC5.getNode 1).is_active stC5 = true ∧
    (stC5.getNode 1).parent = some 0 ∧
    (stC5.getNode 0).is_active stC5 = false ∧
    (stC5.getNode 1).is_active_root stC5 = false := by
  decide

/-- C5 (amended): `is_active_root(n)` is true iff `n` is active and either
`n` has no parent or `n`'s parent holds no activity flag at all (a parent
carrying a flag — even one whose current value is `false` — blocks
active-root status). -/
theorem is_active_root_iff (st : Store) (n : Node) :
    n.is_active_root st = true ↔
      (n.is_active st = true ∧
        (n.parent = none ∨ ∃ p, n.parent = some p ∧ (st.getNode p).active = none)) := by
  unfold Node.is_active_root
  cases hp : n.parent with
  | none => simp
  | some p =>
    simp only [Bool.and_eq_true, Option.isNone_iff_eq_none]
    constructor
    · rintro ⟨ha, hn⟩
      exact ⟨ha, Or.inr ⟨p, rfl, by simpa using hn⟩⟩
    · rintro ⟨ha, hn | ⟨q, hq, hqa⟩⟩
      · exact absurd hn (by simp)
      · obtain rfl : q = p := by injection hq.symm
        exact ⟨ha, by simpa using hqa⟩

/-! ## Claim C7: `CyclicList::new`

`CyclicList::new` allocates a node with *uninitialized* `prev`/`next`
cells and then performs two `ptr::write` calls — but **both** target the
`prev` field:

```
ptr::write(&mut *list.0.prev.borrow_mut(), prev);
ptr::write(&mut *list.0.prev.borrow_mut(), next);
```

so `next` is never initialized.  We model an uninitialized cell as `none`;
reading one is undefined behavior, modelled as a panic (`Option.none`
result). -/

/-- A cyclic-list node: payload plus the two link cells.  A link cell
holding `Option.none` models `mem::uninitialized()` memory. -/
structure CLNode where
  item : Int
  prev : Option Nat
  next : Option Nat
deriving DecidableEq, Repr

instance : Inhabited CLNode := ⟨{ item := 0, prev := none, next := none }⟩

/-- `CyclicList::new(item)` over an arena of cyclic-list nodes: allocate a
node with uninitialized links, then run the two `ptr::write` calls exactly
as the source does — both writing the freshly cloned self-pointer into the
`prev` cell. -/
def clNew (item : Int) (arena : List CLNode) : List CLNode × Nat :=
  let i := arena.length
  let arena := arena ++ [{ item := item, prev := none, next := none }]
  -- ptr::write(&mut *list.0.prev.borrow_mut(), prev);
  let arena := arena.set i { arena.getD i default with prev := some i }
  -- ptr::write(&mut *list.0.prev.borrow_mut(), next);  [the source writes prev again]
  let arena := arena.set i { arena.getD i default with prev := some i }
  (arena, i)

/-- `is_single`: `Rc::ptr_eq(&self.0, &self.next().0)`.  Reading an
uninitialized `next` cell is undefined behavior: `none`. -/
def clIsSingle (arena : List CLNode) (i : Nat) : Option Bool :=
  ((arena.getD i default).next).map (fun nx => nx == i)

/-- C7: the claim says a freshly constructed singleton has both `prev` and
`next` pointing at itself, so `is_single` holds.  In the code the second
`ptr::write` targets `prev` again: for every item, the new node's `prev`
is itself but its `next` is still uninitialized memory, and `is_single`
dereferences that uninitialized cell (undefined behavior, modelled as a
panic) instead of returning `true`. -/
theorem clNew_next_uninitialized (item : Int) :
    ((clNew item []).1.getD (clNew item []).2 default).prev = some (clNew item []).2 ∧
    ((clNew item []).1.getD (clNew item []).2 default).next = none ∧
    clIsSingle (clNew item []).1 (clNew item []).2 = none :=
  ⟨rfl, rfl, rfl⟩

/-! ## The heap structure `Sfib<K, V>`

`q`, `fix_multis` and `fix_singles` are `Option<CyclicList<...>>` in the
source.  A cyclic list is represented by the list of its members read
clockwise starting at the held pointer; `Option::None` is the empty list
`[]`. -/

structure Sfib where
  size : Nat
  root : Option Nat
  active : Nat
  q : List Nat
  fix_multis : List Nat
  fix_singles : List Nat
deriving DecidableEq, Repr, Inhabited

/-- `fn child_index(node, child)`: position of `child` (by pointer
identity) in `node.children`; panics (`unwrap` on `None`) if absent. -/
def child_index (st : Store) (node child : Nat) : Option Nat :=
  (st.getNode node).children.findIdx? (fun c => c = child)

/-- `fn child_remove(node, child)`: remove `child` from `node.children`. -/
def child_remove (st : Store) (node child : Nat) : Option Store :=
  (child_index st node child).map (fun i =>
    st.setNode node { st.getNode node with children := (st.getNode node).children.eraseIdx i })

/-- Second half of `Sfib::link`: set `x.parent = y` and attach `x` to
`y`'s children.  When `x` is active the source calls
`y.rank.increase()`, which is `unimplemented!()` — a panic (`none`). -/
def Sfib.linkAttach (st : Store) (x y : Nat) (active : Bool) : Option Store :=
  let st := st.setNode x { st.getNode x with parent := some y }
  if active then
    none
  else
    some (st.setNode y { st.getNode y with children := (st.getNode y).children ++ [x] })

/-- `fn link(&mut self, x, y)`: detach `x` from its current parent (if
any) and attach it under `y`.  When `x` is active the source calls the
`unimplemented!()` rank hooks (`rank.decrease` on the old parent,
`rank.increase` on `y`): both paths panic. -/
def Sfib.link (st : Store) (x y : Nat) : Option Store :=
  let active := (st.getNode x).is_active st
  match (st.getNode x).parent with
  | some parent =>
    match child_remove st parent x with
    | none => none
    | some st1 =>
      if active then none  -- parent.borrow_mut().rank.decrease(): unimplemented!()
      else Sfib.linkAttach st1 x y active
  | none => Sfib.linkAttach st x y active

/-- `fn reparent(&self, x, y)`: if `x` has a parent, detach it and attach
it at the back of `y`'s children; if `x` has no parent, do nothing. -/
def Sfib.reparent (st : Store) (x y : Nat) : Option Store :=
  match (st.getNode x).parent with
  | some parent =>
    (child_remove st parent x).map (fun st1 =>
      let st2 := st1.setNode x { st1.getNode x with parent := some y }
      st2.setNode y { st2.getNode y with children := (st2.getNode y).children ++ [x] })
  | none => some st

/-- `fn active_root_reduction(&mut self) -> bool`: look at
`fix_multis.next()` and its successor; no-op (`false`) when the fix list
is absent, the two entries are the same entry, or their ranks differ.
Otherwise link the larger-key entry's node under the smaller-key entry's
node; if the absorbing node's last child is passive, pop it and reparent
it under `self.root` (panicking if the root is `None`). -/
def Sfib.active_root_reduction (st : Store) (h : Sfib) : Option (Bool × Store) :=
  match h.fix_multis with
  | [] => some (false, st)
  | m :: rest =>
    let l := m :: rest
    let x := l.getD (1 % l.length) 0
    let y := l.getD (2 % l.length) 0
    if x = y ∨ (st.getFix x).rank ≠ (st.getFix y).rank then
      some (false, st)
    else
      let xn := (st.getFix x).node
      let yn := (st.getFix y).node
      let p := if (st.getNode xn).key < (st.getNode yn).key then (xn, yn) else (yn, xn)
      match Sfib.link st p.2 p.1 with
      | none => none
      | some st1 =>
        match (st1.getNode p.1).children.getLast? with
        | none => none  -- children.back().unwrap() on an empty deque: panic
        | some z =>
          if (st1.getNode z).is_passive st1 then
            let st2 := st1.setNode p.1
              { st1.getNode p.1 with children := (st1.getNode p.1).children.dropLast }
            match h.root with
            | none => none  -- self.root.as_ref().unwrap(): panic
            | some r => (Sfib.reparent st2 z r).map (fun st3 => (true, st3))
          else some (true, st1)

/-- `fn root_degree_reduction(&mut self) -> bool { true }` — a stub:
reports a firing and changes nothing. -/
def Sfib.root_degree_reduction (st : Store) (h : Sfib) : Bool × Store × Sfib :=
  (true, st, h)

/-- `fn one_node_loss_reduction(&mut self) -> bool { true }` — a stub. -/
def Sfib.one_node_loss_reduction (st : Store) (h : Sfib) : Bool × Store × Sfib :=
  (true, st, h)

/-- `fn two_node_loss_reduction(&mut self) -> bool { true }` — a stub. -/
def Sfib.two_node_loss_reduction (st : Store) (h : Sfib) : Bool × Store × Sfib :=
  (true, st, h)

/-- One pass of the `while` loop in `Sfib::reduce` plus the loop control:
each rule is attempted while its budget is positive and decrements the
budget on success; the loop repeats while some budget decreased
(`progress`) and the total remaining budget is positive.  Because each
continued pass strictly decreases `a + b + c + d`, a fuel equal to the
initial total budget bounds the loop exactly: when fuel reaches `0` the
remaining total budget is already `0` and the source loop also stops.  The
`Nat` result counts budget decrements, i.e. successful rule firings; a
`none` store is a panic inside a rule. -/
def Sfib.reduceLoop (st : Store) (h : Sfib) (a b c d fuel : Nat) :
    Option (Store × Sfib) × Nat :=
  match fuel with
  | 0 => (some (st, h), 0)
  | Nat.succ fuel =>
    if a + b + c + d = 0 then (some (st, h), 0)
    else
      match (if 0 < a then Sfib.active_root_reduction st h else some (false, st)) with
      | none => (none, 0)
      | some (f1, st1) =>
        let r2 := if 0 < b then Sfib.root_degree_reduction st1 h else (false, st1, h)
        let r3 := if 0 < c then Sfib.one_node_loss_reduction r2.2.1 r2.2.2
                  else (false, r2.2.1, r2.2.2)
        let r4 := if 0 < d then Sfib.two_node_loss_reduction r3.2.1 r3.2.2
                  else (false, r3.2.1, r3.2.2)
        let a' := if f1 then a - 1 else a
        let b' := if r2.1 then b - 1 else b
        let c' := if r3.1 then c - 1 else c
        let d' := if r4.1 then d - 1 else d
        -- number of budget decrements in this pass
        let fired := (a + b + c + d) - (a' + b' + c' + d')
        if a' + b' + c' + d' < a + b + c + d then
          let r := Sfib.reduceLoop r4.2.1 r4.2.2 a' b' c' d' fuel
          (r.1, fired + r.2)
        else (some (r4.2.1, r4.2.2), fired)

/-- `fn reduce(&mut self, a, b, c, d)`. -/
def Sfib.reduce (st : Store) (h : Sfib) (a b c d : Nat) :
    Option (Store × Sfib) × Nat :=
  Sfib.reduceLoop st h a b c d (a + b + c + d)

/-! ## Claim C3: `reduce` terminates within `a + b + c + d` firings

`Sfib.reduceLoop` is a total function (termination is structural on the
fuel, which the `progress` condition keeps ahead of the remaining budget),
and its firing count never exceeds the initial total budget. -/

theorem reduceLoop_fired_le (fuel : Nat) :
    ∀ st h a b c d, (Sfib.reduceLoop st h a b c d fuel).2 ≤ a + b + c + d := by
  induction fuel with
  | zero => intro st h a b c d; simp [Sfib.reduceLoop]
  | succ fuel ih =>
    intro st h a b c d
    rw [Sfib.reduceLoop]
    by_cases hz : a + b + c + d = 0
    · simp [hz]
    · rw [if_neg hz]
      rcases hr : (if 0 < a then Sfib.active_root_reduction st h else some (false, st)) with
        _ | ⟨f1, st1⟩
      · simp
      · dsimp only
        simp only [Sfib.root_degree_reduction, Sfib.one_node_loss_reduction,
          Sfib.two_node_loss_reduction, apply_ite Prod.fst, apply_ite Prod.snd, ite_self]
        by_cases hb : 0 < b <;> by_cases hc : 0 < c <;> by_cases hd : 0 < d <;> cases f1 <;>
          simp only [hb, hc, hd, if_true, if_false, Bool.false_eq_true, ite_true, ite_false] <;>
          split <;>
          first
            | omega
            | (rename_i hprog
               refine le_trans (Nat.add_le_add_left (ih _ _ _ _ _ _) _) ?_
               omega)

/-- C3: for all non-negative budgets `a b c d` (and any heap state),
`reduce(a, b, c, d)` terminates — `Sfib.reduce` is a total function — and
the number of successful rule firings (budget decrements) it performs is
at most `a + b + c + d`. -/
theorem reduce_terminates_fired_le (st : Store) (h : Sfib) (a b c d : Nat) :
    (Sfib.reduce st h a b c d).2 ≤ a + b + c + d :=
  reduceLoop_fired_le (a + b + c + d) st h a b c d

/-- On any heap whose `fix_multis` segment is absent,
`active_root_reduction` reports no firing and changes nothing. -/
theorem active_root_reduction_multis_nil (st : Store) (h : Sfib)
    (hm : h.fix_multis = []) :
    Sfib.active_root_reduction st h = some (false, st) := by
  unfold Sfib.active_root_reduction
  rw [hm]

/-- When `fix_multis` is absent, a `reduce` call changes nothing and fires
exactly `b + c + d` times: `active_root_reduction` never fires and the
three stub rules burn their entire budgets. -/
theorem reduceLoop_multis_nil (fuel : Nat) :
    ∀ st h a b c d, h.fix_multis = [] → a + b + c + d ≤ fuel →
      Sfib.reduceLoop st h a b c d fuel = (some (st, h), b + c + d) := by
  induction fuel with
  | zero =>
    intro st h a b c d hm hle
    have hb : b = 0 := by omega
    have hc : c = 0 := by omega
    have hd : d = 0 := by omega
    subst hb; subst hc; subst hd
    simp [Sfib.reduceLoop]
  | succ fuel ih =>
    intro st h a b c d hm hle
    rw [Sfib.reduceLoop]
    by_cases hz : a + b + c + d = 0
    · have hb : b = 0 := by omega
      have hc : c = 0 := by omega
      have hd : d = 0 := by omega
      subst hb; subst hc; subst hd
      simp [hz]
    · rw [if_neg hz]
      have har : (if 0 < a then Sfib.active_root_reduction st h else some (false, st)) =
          some (false, st) := by
        split
        · exact active_root_reduction_multis_nil st h hm
        · rfl
      rw [har]
      dsimp only
      simp only [Sfib.root_degree_reduction, Sfib.one_node_loss_reduction,
        Sfib.two_node_loss_reduction, apply_ite Prod.fst, apply_ite Prod.snd, ite_self,
        Bool.false_eq_true, if_false, ite_false]
      by_cases hb : 0 < b <;> by_cases hc : 0 < c <;> by_cases hd : 0 < d <;>
        simp only [hb, hc, hd, if_true, if_false, ite_true, ite_false,
          Bool.false_eq_true, Bool.true_eq_false, eq_self_iff_true] <;>
        first
          | (rw [if_pos (by omega)]
             rw [ih st h a _ _ _ hm (by omega)]
             rw [Prod.mk.injEq]
             exact ⟨rfl, by omega⟩)
          | (rw [if_neg (by omega)]
             rw [Prod.mk.injEq]
             exact ⟨rfl, by omega⟩)

/-- `reduce` on a heap with no `fix_multis` segment: nothing changes and
exactly the stub budgets `b + c + d` are consumed. -/
theorem reduce_multis_nil (st : Store) (h : Sfib) (a b c d : Nat)
    (hm : h.fix_multis = []) :
    Sfib.reduce st h a b c d = (some (st, h), b + c + d) :=
  reduceLoop_multis_nil (a + b + c + d) st h a b c d hm (le_refl _)

/-! ## Claim C9: the three stub rules report firings without any effect -/

/-- C9: `root_degree_reduction`, `one_node_loss_reduction` and
`two_node_loss_reduction` each return `true` while leaving the store and
every heap field unchanged; consequently `reduce` (here on any heap whose
`fix_multis` segment is absent, so that `active_root_reduction` cannot
interfere) consumes the budgets `b`, `c`, `d` in full — firing exactly
`b + c + d` times — while performing no structural change at all. -/
theorem stub_rules_frame (st : Store) (h : Sfib) (a b c d : Nat)
    (hm : h.fix_multis = []) :
    Sfib.root_degree_reduction st h = (true, st, h) ∧
    Sfib.one_node_loss_reduction st h = (true, st, h) ∧
    Sfib.two_node_loss_reduction st h = (true, st, h) ∧
    Sfib.reduce st h a b c d = (some (st, h), b + c + d) :=
  ⟨rfl, rfl, rfl, reduce_multis_nil st h a b c d hm⟩

/-- A concrete empty heap (the literal produced by `Sfib::new` over the
empty store). -/
def exHeap9 : Sfib :=
  { size := 0, root := none, active := 0, q := [], fix_multis := [], fix_singles := [] }

/-- Witness for C9 at a concrete heap and budgets `1 2 3 4`. -/
theorem stub_rules_frame_witness :
    exHeap9.fix_multis = [] ∧
    (Sfib.root_degree_reduction emptyStore exHeap9 = (true, emptyStore, exHeap9) ∧
     Sfib.one_node_loss_reduction emptyStore exHeap9 = (true, emptyStore, exHeap9) ∧
     Sfib.two_node_loss_reduction emptyStore exHeap9 = (true, emptyStore, exHeap9) ∧
     Sfib.reduce emptyStore exHeap9 1 2 3 4 = (some (emptyStore, exHeap9), 2 + 3 + 4)) :=
  ⟨rfl, stub_rules_frame emptyStore exHeap9 1 2 3 4 rfl⟩

/-! ## Claim C8: `active_root_reduction` on a firing pair panics

On a `fix_multis` segment whose front two entries are distinct and carry
equal ranks — the firing case — the rule calls `link`, and `link` on an
active node reaches `rank.increase()` / `rank.decrease()`, both
`unimplemented!()`.  So the documented link-and-return-true behavior is
unreachable for a pair of active roots: the code panics instead. -/

/-- Store for C8: two active root nodes (both holding flag 0, currently
`true`) with keys 0 and 1, and two fix entries of equal rank 2 naming
them. -/
def stC8 : Store :=
  { nodes :=
      [{ key := 0, active := some 0, rank := RankDesc.Rank 2, loss := 0,
         parent := none, children := [] },
       { key := 1, active := some 0, rank := RankDesc.Rank 2, loss := 0,
         parent := none, children := [] }],
    flags := [true],
    fixes := [{ node := 0, rank := 2 }, { node := 1, rank := 2 }] }

/-- Heap for C8: `fix_multis` holds the two entries. -/
def hC8 : Sfib :=
  { size := 2, root := some 0, active := 0, q := [], fix_multis := [0, 1],
    fix_singles := [] }

/-- C8: at a state where the front two `fix_multis` entries are distinct
entries of equal rank naming two active roots — exactly the case the claim
says is linked with `true` returned — `active_root_reduction` panics
(`none`): the link path runs into the `unimplemented!()` rank hooks. -/
theorem active_root_reduction_unimplemented_panic :
    ((stC8.getFix 1).rank = (stC8.getFix 0).rank ∧
     (stC8.getNode 0).is_active_root stC8 = true ∧
     (stC8.getNode 1).is_active_root stC8 = true) ∧
    Sfib.active_root_reduction stC8 hC8 = none := by
  decide

/-! ## Heap operations (`impl<K: Ord, V> Sfib<K, V>`) -/

/-- `Sfib::new()`: empty heap with a freshly allocated shared activity
flag `Rc::new(Cell::new(true))`. -/
def Sfib.new (st : Store) : Store × Sfib :=
  ({ st with flags := st.flags ++ [true] },
   { size := 0, root := none, active := st.flags.length, q := [],
     fix_multis := [], fix_singles := [] })

/-- `fn min_key(&self) -> Option<Ref<K>>`: the root's key, if any. -/
def Sfib.min_key (st : Store) (h : Sfib) : Option Int :=
  h.root.map (fun r => (st.getNode r).key)

/-- The flag update at the top of `Sfib::meld`: "make all nodes of smaller
heap passive" — `if self.size <= other.size { self.active.set(false) }
else { other.active.set(false) }`. -/
def meldFlag (st : Store) (self other : Sfib) : Store :=
  if self.size ≤ other.size then st.setFlag self.active false
  else st.setFlag other.active false

/-- The structural edit of `Sfib::meld`: `v.parent = Some(u)` and
`u.children.push_back(v)`. -/
def meldLink (st : Store) (u v : Nat) : Store :=
  let st1 := st.setNode v { st.getNode v with parent := some u }
  st1.setNode u { st1.getNode u with children := (st1.getNode u).children ++ [v] }

/-- The non-trivial branch of `Sfib::meld` (both heaps non-empty), up to
but not including the final `reduce` call: flag update, root comparison
(`u` gets the smaller key), re-rooting, size sum and the four-way `match`
combining the two pending queues `q`. -/
def meldCore (st : Store) (self other : Sfib) (ru rv : Nat) : Store × Sfib :=
  let st1 := meldFlag st self other
  -- rename u/v such that u < v
  let p := if (st1.getNode ru).key < (st1.getNode rv).key then (ru, rv) else (rv, ru)
  -- let u be root, and v its child
  let st2 := meldLink st1 p.1 p.2
  let q :=
    match self.q, other.q with
    | a :: arest, b :: brest => a :: ((b :: brest) ++ (p.2 :: arest))
    | a :: arest, [] => a :: p.2 :: arest
    | [], b :: brest => p.2 :: b :: brest
    | [], [] => [p.2]
  (st2,
   { size := self.size + other.size, root := some p.1, active := self.active,
     q := q, fix_multis := self.fix_multis, fix_singles := self.fix_singles })

/-- `pub fn meld(&mut self, other)`: no-op when `other` is empty; becomes
`other` when `self` is empty; otherwise the structural edit of `meldCore`
followed by `self.reduce(1, 1, 0, 0)`. -/
def Sfib.meld (st : Store) (self other : Sfib) : Option (Store × Sfib) :=
  match other.root with
  | none => some (st, self)
  | some rv =>
    match self.root with
    | none => some (st, other)
    | some ru =>
      let r := meldCore st self other ru rv
      match Sfib.reduce r.1 r.2 1 1 0 0 with
      | (some res, _) => some res
      | (none, _) => none

/-- `pub fn insert(&mut self, key, val) -> Element`: an empty heap becomes
the singleton; otherwise a fresh singleton heap is built (`Self::new()`
followed by the recursive `insert`, which lands in the empty branch) and
melded in.  Returns the new node's index. -/
def Sfib.insert (st : Store) (h : Sfib) (key : Int) : Option (Store × Sfib × Nat) :=
  match h.root with
  | none =>
    let i := st.nodes.length
    let st1 := { st with nodes := st.nodes ++
      [{ key := key, active := none, rank := RankDesc.None, loss := 0,
         parent := none, children := [] }] }
    some (st1, { h with root := some i, size := 1 }, i)
  | some _ =>
    let r0 := Sfib.new st
    let i := r0.1.nodes.length
    let st1 := { r0.1 with nodes := r0.1.nodes ++
      [{ key := key, active := none, rank := RankDesc.None, loss := 0,
         parent := none, children := [] }] }
    let other := { r0.2 with root := some i, size := 1 }
    (Sfib.meld st1 h other).map (fun r => (r.1, r.2, i))

/-! ## Programs over the public heap API

A `HProg` is an arbitrary sequence (tree) of `insert`/`meld` calls
applied to heaps built from `Sfib::new()`.  `runProg` threads the shared
store through the construction: `mld p q` builds the first heap, builds
the second heap in the resulting store, then melds. -/

inductive HProg where
  | empty : HProg
  | ins : Int → HProg → HProg
  | mld : HProg → HProg → HProg
deriving DecidableEq, Repr

def runProg : HProg → Store → Option (Store × Sfib)
  | .empty, st => some (Sfib.new st)
  | .ins k p, st =>
    match runProg p st with
    | none => none
    | some (st1, h1) => (Sfib.insert st1 h1 k).map (fun r => (r.1, r.2.1))
  | .mld p q, st =>
    match runProg p st with
    | none => none
    | some (st1, hA) =>
      match runProg q st1 with
      | none => none
      | some (st2, hB) => Sfib.meld st2 hA hB

/-! ## Invariants of run-produced states -/

/-- Heap order over the whole store: every node holding a parent pointer
points at a valid index whose key is no larger than its own. -/
def StoreOrder (st : Store) : Prop :=
  ∀ i, i < st.nodes.length → ∀ p, (st.getNode i).parent = some p →
    p < st.nodes.length ∧ (st.getNode p).key ≤ (st.getNode i).key

theorem storeOrder_empty : StoreOrder emptyStore := by
  intro i hi
  simp [emptyStore] at hi

/-- Facts every run-produced heap value satisfies relative to its store. -/
def HeapOK (st : Store) (h : Sfib) : Prop :=
  h.fix_multis = [] ∧
  (∀ r, h.root = some r → r < st.nodes.length) ∧
  (h.root = none → h.size = 0) ∧
  h.active < st.flags.length

theorem heapOK_mono (st st' : Store) (h : Sfib)
    (hn : st.nodes.length ≤ st'.nodes.length)
    (hf : st.flags.length ≤ st'.flags.length)
    (hok : HeapOK st h) : HeapOK st' h := by
  obtain ⟨h1, h2, h3, h4⟩ := hok
  exact ⟨h1, fun r hr => lt_of_lt_of_le (h2 r hr) hn, h3, lt_of_lt_of_le h4 hf⟩

theorem storeOrder_congr_nodes (st st' : Store) (h : st'.nodes = st.nodes)
    (hso : StoreOrder st) : StoreOrder st' := by
  intro i hi p hp
  unfold Store.getNode at *
  rw [h] at hi hp ⊢
  exact hso i hi p hp

/-- Appending a parentless node preserves store-wide heap order. -/
theorem storeOrder_append (st : Store) (n : Node) (hn : n.parent = none)
    (h : StoreOrder st) :
    StoreOrder { st with nodes := st.nodes ++ [n] } := by
  intro i hi p hp
  unfold Store.getNode at hp ⊢
  simp only [List.length_append, List.length_cons, List.length_nil] at hi ⊢
  by_cases hlt : i < st.nodes.length
  · rw [getD_append_lt _ _ _ _ hlt] at hp
    obtain ⟨hpl, hpk⟩ := h i hlt p hp
    rw [getD_append_lt _ _ _ _ hlt, getD_append_lt _ _ _ _ hpl]
    exact ⟨by omega, hpk⟩
  · have hieq : i = st.nodes.length := by omega
    subst hieq
    rw [getD_append_self] at hp
    rw [hn] at hp
    cases hp

/-! ### Lemmas about the meld building blocks -/

theorem meldFlag_nodes (st : Store) (A B : Sfib) :
    (meldFlag st A B).nodes = st.nodes := by
  unfold meldFlag
  split <;> rfl

theorem getNode_meldFlag (st : Store) (A B : Sfib) (i : Nat) :
    (meldFlag st A B).getNode i = st.getNode i := by
  unfold Store.getNode
  rw [meldFlag_nodes]

theorem meldFlag_flags_length (st : Store) (A B : Sfib) :
    (meldFlag st A B).flags.length = st.flags.length := by
  unfold meldFlag Store.setFlag
  split <;> simp

theorem meldLink_flags (st : Store) (u v : Nat) :
    (meldLink st u v).flags = st.flags := rfl

theorem meldLink_length (st : Store) (u v : Nat) :
    (meldLink st u v).nodes.length = st.nodes.length := by
  unfold meldLink
  rw [Store.length_setNode, Store.length_setNode]

/-- Full description of a node read after `meldLink`: keys, activity
flags, rank, loss are untouched everywhere; only `v` (when valid) gets the
new parent `u`, and only `u` gets the extra child. -/
theorem getNode_meldLink (st : Store) (u v i : Nat) :
    ((meldLink st u v).getNode i).key = (st.getNode i).key ∧
    ((meldLink st u v).getNode i).active = (st.getNode i).active ∧
    ((meldLink st u v).getNode i).parent =
      (if v = i ∧ v < st.nodes.length then some u else (st.getNode i).parent) := by
  unfold meldLink
  dsimp only
  simp only [Store.getNode_setNode, Store.length_setNode]
  by_cases hui : u = i ∧ u < st.nodes.length
  · obtain ⟨rfl, hul⟩ := hui
    by_cases hvu : v = u ∧ v < st.nodes.length
    · obtain ⟨rfl, hvl⟩ := hvu
      simp [hvl]
    · simp [hul, hvu]
  · by_cases hvi : v = i ∧ v < st.nodes.length
    · obtain ⟨rfl, hvl⟩ := hvi
      simp [hui, hvl]
    · simp [hui, hvi]

/-- `meldLink` preserves store-wide heap order when the new parent `u` is
valid and its key is no larger than `v`'s. -/
theorem storeOrder_meldLink (st : Store) (u v : Nat)
    (hu : u < st.nodes.length)
    (hkey : (st.getNode u).key ≤ (st.getNode v).key)
    (h : StoreOrder st) : StoreOrder (meldLink st u v) := by
  intro i hi p hp
  rw [meldLink_length] at hi ⊢
  obtain ⟨hk, ha, hpar⟩ := getNode_meldLink st u v i
  rw [hpar] at hp
  obtain ⟨hkp, -, -⟩ := getNode_meldLink st u v p
  rw [hkp, hk]
  by_cases hvi : v = i ∧ v < st.nodes.length
  · rw [if_pos hvi] at hp
    obtain rfl : u = p := by injection hp
    obtain ⟨rfl, -⟩ := hvi
    exact ⟨hu, hkey⟩
  · rw [if_neg hvi] at hp
    exact h i hi p hp

/-- Which root wins the key comparison in `meld` (becomes the new root). -/
def meldU (st : Store) (ru rv : Nat) : Nat :=
  if (st.getNode ru).key < (st.getNode rv).key then ru else rv

/-- Which root loses the key comparison in `meld` (becomes the child). -/
def meldV (st : Store) (ru rv : Nat) : Nat :=
  if (st.getNode ru).key < (st.getNode rv).key then rv else ru

theorem meldU_key_le (st : Store) (ru rv : Nat) :
    (st.getNode (meldU st ru rv)).key ≤ (st.getNode (meldV st ru rv)).key := by
  unfold meldU meldV
  split
  · rename_i hk
    exact le_of_lt hk
  · rename_i hk
    exact le_of_not_lt hk

theorem meldU_key_min (st : Store) (ru rv : Nat) :
    (st.getNode (meldU st ru rv)).key = min ((st.getNode ru).key) ((st.getNode rv).key) := by
  unfold meldU
  split
  · rename_i hk
    exact (min_eq_left (le_of_lt hk)).symm
  · rename_i hk
    exact (min_eq_right (le_of_not_lt hk)).symm

theorem meldCore_fst (st : Store) (A B : Sfib) (ru rv : Nat) :
    (meldCore st A B ru rv).1 =
      meldLink (meldFlag st A B) (meldU st ru rv) (meldV st ru rv) := by
  unfold meldCore meldU meldV
  dsimp only
  rw [getNode_meldFlag, getNode_meldFlag]
  by_cases hk : (st.getNode ru).key < (st.getNode rv).key <;> simp [hk]

theorem meldCore_snd (st : Store) (A B : Sfib) (ru rv : Nat) :
    (meldCore st A B ru rv).2.size = A.size + B.size ∧
    (meldCore st A B ru rv).2.active = A.active ∧
    (meldCore st A B ru rv).2.fix_multis = A.fix_multis ∧
    (meldCore st A B ru rv).2.root = some (meldU st ru rv) := by
  unfold meldCore meldU
  dsimp only
  rw [getNode_meldFlag, getNode_meldFlag]
  by_cases hk : (st.getNode ru).key < (st.getNode rv).key <;> simp [hk]

/-- In the non-trivial case (both roots present, `self`'s `fix_multis`
absent) `meld` returns exactly the `meldCore` edit: the final
`reduce(1, 1, 0, 0)` changes nothing. -/
theorem meld_eq_core (st : Store) (A B : Sfib) (ru rv : Nat)
    (hA : A.root = some ru) (hB : B.root = some rv) (hmul : A.fix_multis = []) :
    Sfib.meld st A B = some (meldCore st A B ru rv) := by
  unfold Sfib.meld
  rw [hB, hA]
  dsimp only
  rw [reduce_multis_nil _ _ 1 1 0 0 (by rw [(meldCore_snd st A B ru rv).2.2.1]; exact hmul)]

/-- `meld` on two well-formed heaps over an order-respecting store: it
succeeds, preserves store-wide heap order and well-formedness, keeps both
arena lengths, and the result's flag is one of the two input flags. -/
theorem meld_ok (st : Store) (A B : Sfib)
    (hso : StoreOrder st) (hA : HeapOK st A) (hB : HeapOK st B) :
    ∃ st' h', Sfib.meld st A B = some (st', h') ∧
      StoreOrder st' ∧ HeapOK st' h' ∧
      st'.nodes.length = st.nodes.length ∧
      st'.flags.length = st.flags.length ∧
      (h'.active = A.active ∨ h'.active = B.active) := by
  obtain ⟨hmulA, hrootA, hszA, hactA⟩ := hA
  obtain ⟨hmulB, hrootB, hszB, hactB⟩ := hB
  cases hBr : B.root with
  | none =>
    refine ⟨st, A, ?_, hso, ⟨hmulA, hrootA, hszA, hactA⟩, rfl, rfl, Or.inl rfl⟩
    unfold Sfib.meld
    rw [hBr]
  | some rv =>
    cases hAr : A.root with
    | none =>
      refine ⟨st, B, ?_, hso, ⟨hmulB, hrootB, hszB, hactB⟩, rfl, rfl, Or.inr rfl⟩
      unfold Sfib.meld
      rw [hBr, hAr]
    | some ru =>
      have hru := hrootA ru hAr
      have hrv := hrootB rv hBr
      have hulen : meldU st ru rv < st.nodes.length := by
        unfold meldU
        split <;> assumption
      have hnlen : (meldCore st A B ru rv).1.nodes.length = st.nodes.length := by
        rw [meldCore_fst, meldLink_length, meldFlag_nodes]
      have hflen : (meldCore st A B ru rv).1.flags.length = st.flags.length := by
        rw [meldCore_fst, meldLink_flags, meldFlag_flags_length]
      obtain ⟨hsize, hactive, hfm, hroot⟩ := meldCore_snd st A B ru rv
      refine ⟨(meldCore st A B ru rv).1, (meldCore st A B ru rv).2,
        meld_eq_core st A B ru rv hAr hBr hmulA, ?_, ?_, hnlen, hflen, Or.inl hactive⟩
      · rw [meldCore_fst]
        apply storeOrder_meldLink
        · rw [meldFlag_nodes]
          exact hulen
        · rw [getNode_meldFlag, getNode_meldFlag]
          exact meldU_key_le st ru rv
        · exact storeOrder_congr_nodes st _ (meldFlag_nodes st A B) hso
      · refine ⟨by rw [hfm]; exact hmulA, ?_, ?_, ?_⟩
        · intro r hr
          rw [hroot] at hr
          injection hr with hr
          rw [hnlen, ← hr]
          exact hulen
        · intro hn
          rw [hroot] at hn
          cases hn
        · rw [hactive, hflen]
          exact hactA

/-- The non-empty branch of `insert`, written out: a fresh flag and a
fresh parentless node are allocated and the singleton heap is melded in. -/
theorem insert_else (st : Store) (h : Sfib) (k : Int) (r0 : Nat)
    (hr : h.root = some r0) :
    Sfib.insert st h k =
      (Sfib.meld
        { nodes := st.nodes ++
            [{ key := k, active := none, rank := RankDesc.None, loss := 0,
               parent := none, children := [] }],
          flags := st.flags ++ [true], fixes := st.fixes }
        h
        { size := 1, root := some st.nodes.length, active := st.flags.length,
          q := [], fix_multis := [], fix_singles := [] }).map
        (fun r => (r.1, r.2, st.nodes.length)) := by
  unfold Sfib.insert
  rw [hr]
  rfl

/-- `insert` on a well-formed heap over an order-respecting store:
succeeds, preserves both invariants, only grows the arenas, and the result
heap's flag is the input heap's flag or a freshly allocated one. -/
theorem insert_ok (st : Store) (h : Sfib) (k : Int)
    (hso : StoreOrder st) (hh : HeapOK st h) :
    ∃ st' h' e, Sfib.insert st h k = some (st', h', e) ∧
      StoreOrder st' ∧ HeapOK st' h' ∧
      st.nodes.length ≤ st'.nodes.length ∧
      st.flags.length ≤ st'.flags.length ∧
      (h'.active = h.active ∨ h'.active = st.flags.length) := by
  obtain ⟨hmul, hroot, hsz, hact⟩ := hh
  cases hr : h.root with
  | none =>
    refine ⟨{ st with nodes := st.nodes ++
        [{ key := k, active := none, rank := RankDesc.None, loss := 0,
           parent := none, children := [] }] },
      { h with root := some st.nodes.length, size := 1 }, st.nodes.length,
      ?_, ?_, ?_, ?_, ?_, Or.inl rfl⟩
    · unfold Sfib.insert
      rw [hr]
    · exact storeOrder_append st _ rfl hso
    · refine ⟨hmul, ?_, ?_, hact⟩
      · intro r hr2
        injection hr2 with hr2
        simp [← hr2]
      · intro hn
        cases hn
    · simp
    · exact le_refl _
  | some r0 =>
    set stM : Store :=
      { nodes := st.nodes ++
          [{ key := k, active := none, rank := RankDesc.None, loss := 0,
             parent := none, children := [] }],
        flags := st.flags ++ [true], fixes := st.fixes } with hstM
    set other : Sfib :=
      { size := 1, root := some st.nodes.length, active := st.flags.length,
        q := [], fix_multis := [], fix_singles := [] } with hother
    have hsoM : StoreOrder stM := by
      have : StoreOrder { st with nodes := st.nodes ++
          [{ key := k, active := none, rank := RankDesc.None, loss := 0,
             parent := none, children := [] }] } := storeOrder_append st _ rfl hso
      exact storeOrder_congr_nodes _ _ rfl this
    have hokh : HeapOK stM h := by
      refine ⟨hmul, ?_, hsz, ?_⟩
      · intro r hr2
        have := hroot r hr2
        simp [hstM]
        omega
      · simp [hstM]
        omega
    have hokother : HeapOK stM other := by
      refine ⟨rfl, ?_, ?_, ?_⟩
      · intro r hr2
        injection hr2 with hr2
        simp [hstM, ← hr2]
      · intro hn
        cases hn
      · simp [hstM, hother]
    obtain ⟨st', h', hmeld, hso', hok', hn', hf', hactor⟩ :=
      meld_ok stM h other hsoM hokh hokother
    refine ⟨st', h', st.nodes.length, ?_, hso', hok', ?_, ?_, ?_⟩
    · rw [insert_else st h k r0 hr, ← hstM, ← hother, hmeld]
      rfl
    · have : stM.nodes.length = st.nodes.length + 1 := by simp [hstM]
      omega
    · have : stM.flags.length = st.flags.length + 1 := by simp [hstM]
      omega
    · rcases hactor with he | he
      · exact Or.inl (by rw [he])
      · exact Or.inr (by rw [he])

/-- Every successful run of an `insert`/`meld` program preserves
store-wide heap order, yields a well-formed heap, only grows the arenas,
and allocates the result heap's flag during the run. -/
theorem runProg_ok (p : HProg) :
    ∀ st st' h, StoreOrder st → runProg p st = some (st', h) →
      StoreOrder st' ∧ HeapOK st' h ∧
      st.nodes.length ≤ st'.nodes.length ∧
      st.flags.length ≤ st'.flags.length ∧
      st.flags.length ≤ h.active := by
  induction p with
  | empty =>
    intro st st' h hso hrun
    unfold runProg at hrun
    injection hrun with hrun
    rw [Sfib.new] at hrun
    injection hrun with h1 h2
    subst h1
    subst h2
    refine ⟨storeOrder_congr_nodes st _ rfl hso, ⟨rfl, ?_, fun _ => rfl, ?_⟩, ?_, ?_, ?_⟩
    · intro r hr
      cases hr
    · simp
    · exact le_refl _
    · simp
    · exact le_refl _
  | ins k p ih =>
    intro st st' h hso hrun
    unfold runProg at hrun
    cases hp : runProg p st with
    | none =>
      rw [hp] at hrun
      cases hrun
    | some r =>
      obtain ⟨st1, h1⟩ := r
      rw [hp] at hrun
      dsimp only at hrun
      obtain ⟨hso1, hok1, hn1, hf1, ha1⟩ := ih st st1 h1 hso hp
      obtain ⟨st2, h2, e, hins, hso2, hok2, hn2, hf2, hactor⟩ := insert_ok st1 h1 k hso1 hok1
      rw [hins] at hrun
      simp at hrun
      obtain ⟨rfl, rfl⟩ := hrun
      refine ⟨hso2, hok2, le_trans hn1 hn2, le_trans hf1 hf2, ?_⟩
      rcases hactor with he | he <;> rw [he] <;> omega
  | mld p q ihp ihq =>
    intro st st' h hso hrun
    unfold runProg at hrun
    cases hp : runProg p st with
    | none =>
      rw [hp] at hrun
      cases hrun
    | some rA =>
      obtain ⟨st1, hA⟩ := rA
      rw [hp] at hrun
      dsimp only at hrun
      cases hq : runProg q st1 with
      | none =>
        rw [hq] at hrun
        cases hrun
      | some rB =>
        obtain ⟨st2, hB⟩ := rB
        rw [hq] at hrun
        dsimp only at hrun
        obtain ⟨hso1, hokA, hn1, hf1, haA⟩ := ihp st st1 hA hso hp
        obtain ⟨hso2, hokB, hn2, hf2, haB⟩ := ihq st1 st2 hB hso1 hq
        have hokA2 : HeapOK st2 hA := heapOK_mono st1 st2 hA hn2 hf2 hokA
        obtain ⟨st3, h3, hmeld, hso3, hok3, hn3, hf3, hactor⟩ :=
          meld_ok st2 hA hB hso2 hokA2 hokB
        rw [hmeld] at hrun
        injection hrun with hrun
        obtain ⟨rfl, rfl⟩ := Prod.mk.injEq _ _ _ _ ▸ hrun
        refine ⟨hso3, hok3, by omega, by omega, ?_⟩
        rcases hactor with he | he <;> rw [he] <;> omega

/-! ## Claims C1, C2, C6, C10: behavior of `meld` on built heaps -/

/-- Minimum of two optional keys (absent = empty heap, neutral). -/
def optMin : Option Int → Option Int → Option Int
  | none, b => b
  | some a, none => some a
  | some a, some b => some (min a b)

theorem optMin_none_right (x : Option Int) : optMin x none = x := by
  cases x <;> rfl

theorem getFlag_meldLink (st : Store) (u v f : Nat) :
    (meldLink st u v).getFlag f = st.getFlag f := rfl

/-- Size/minimum behavior of `meld` on two non-empty heaps. -/
theorem meld_size_min_core (st : Store) (A B : Sfib) (ru rv : Nat)
    (hA : A.root = some ru) (hB : B.root = some rv) (hmul : A.fix_multis = []) :
    ∃ st' h', Sfib.meld st A B = some (st', h') ∧
      h'.size = A.size + B.size ∧
      Sfib.min_key st' h' = some (min ((st.getNode ru).key) ((st.getNode rv).key)) := by
  obtain ⟨hsize, hactive, hfm, hroot⟩ := meldCore_snd st A B ru rv
  refine ⟨(meldCore st A B ru rv).1, (meldCore st A B ru rv).2,
    meld_eq_core st A B ru rv hA hB hmul, hsize, ?_⟩
  unfold Sfib.min_key
  rw [hroot]
  have hmap : Option.map (fun r => ((meldCore st A B ru rv).1.getNode r).key)
      (some (meldU st ru rv)) =
      some (((meldCore st A B ru rv).1.getNode (meldU st ru rv)).key) := rfl
  rw [hmap, meldCore_fst,
    (getNode_meldLink (meldFlag st A B) (meldU st ru rv) (meldV st ru rv) (meldU st ru rv)).1,
    getNode_meldFlag, meldU_key_min]

/-- C1: for every pair of heaps `A`, `B` built by `insert`/`meld`
programs over a shared store, `A.meld(B)` succeeds and the resulting heap
has size `size A + size B` and minimum key `min (min A) (min B)` (as
optional values; an empty side is neutral). -/
theorem meld_size_min (p q : HProg) (st1 st2 : Store) (A B : Sfib)
    (hp : runProg p emptyStore = some (st1, A))
    (hq : runProg q st1 = some (st2, B)) :
    ∃ st' h', Sfib.meld st2 A B = some (st', h') ∧
      h'.size = A.size + B.size ∧
      Sfib.min_key st' h' = optMin (Sfib.min_key st2 A) (Sfib.min_key st2 B) := by
  obtain ⟨hso1, hokA, hn1, hf1, -⟩ := runProg_ok p emptyStore st1 A storeOrder_empty hp
  obtain ⟨hso2, hokB, hn2, hf2, -⟩ := runProg_ok q st1 st2 B hso1 hq
  obtain ⟨hmulA, hrootA, hszA, -⟩ := hokA
  obtain ⟨hmulB, hrootB, hszB, -⟩ := hokB
  cases hBr : B.root with
  | none =>
    have hBsz := hszB hBr
    refine ⟨st2, A, by unfold Sfib.meld; rw [hBr], by omega, ?_⟩
    rw [show Sfib.min_key st2 B = none from by unfold Sfib.min_key; rw [hBr]; rfl]
    rw [optMin_none_right]
  | some rv =>
    cases hAr : A.root with
    | none =>
      have hAsz := hszA hAr
      refine ⟨st2, B, by unfold Sfib.meld; rw [hBr, hAr], by omega, ?_⟩
      rw [show Sfib.min_key st2 A = none from by unfold Sfib.min_key; rw [hAr]; rfl]
      rfl
    | some ru =>
      obtain ⟨st', h', hmeld, hsz, hmin⟩ := meld_size_min_core st2 A B ru rv hAr hBr hmulA
      refine ⟨st', h', hmeld, hsz, ?_⟩
      rw [hmin]
      unfold Sfib.min_key
      rw [hAr, hBr]
      rfl

def progC1A : HProg := .ins 9 (.ins 5 (.ins 1 .empty))

def progC1B : HProg := .ins 3 (.ins 2 .empty)

def runC1A : Store × Sfib := (runProg progC1A emptyStore).getD (emptyStore, default)

def runC1B : Store × Sfib := (runProg progC1B runC1A.1).getD (emptyStore, default)

/-- Witness for C1 at the spec's scenario: `A = {1,5,9}` built by repeated
insert, `B = {2,3}`, `meld(A, B)` has size `3 + 2 = 5` and minimum key
`1`. -/
theorem meld_size_min_witness :
    (runProg progC1A emptyStore = some (runC1A.1, runC1A.2) ∧
     runProg progC1B runC1A.1 = some (runC1B.1, runC1B.2)) ∧
    (∃ st' h', Sfib.meld runC1B.1 runC1A.2 runC1B.2 = some (st', h') ∧
       h'.size = runC1A.2.size + runC1B.2.size ∧
       Sfib.min_key st' h' =
         optMin (Sfib.min_key runC1B.1 runC1A.2) (Sfib.min_key runC1B.1 runC1B.2)) ∧
    runC1A.2.size + runC1B.2.size = 5 ∧
    optMin (Sfib.min_key runC1B.1 runC1A.2) (Sfib.min_key runC1B.1 runC1B.2) = some 1 :=
  ⟨⟨by decide, by decide⟩,
   meld_size_min progC1A progC1B runC1A.1 runC1B.1 runC1A.2 runC1B.2 (by decide) (by decide),
   by decide, by decide⟩

/-- C2: for every heap built from the empty heap by any sequence of
`insert` and `meld` calls, heap order holds: every node that has a parent
has a key greater than or equal to its parent's key (`StoreOrder` states
this for every node of the resulting store, together with validity of the
parent index). -/
theorem built_heap_order (p : HProg) (st : Store) (h : Sfib)
    (hrun : runProg p emptyStore = some (st, h)) :
    StoreOrder st :=
  (runProg_ok p emptyStore st h storeOrder_empty hrun).1

def progC2 : HProg := .mld (.ins 4 (.ins 1 .empty)) (.ins 2 (.ins 3 .empty))

def runC2 : Store × Sfib := (runProg progC2 emptyStore).getD (emptyStore, default)

/-- Witness for C2 at a concrete program mixing inserts and a meld. -/
theorem built_heap_order_witness :
    runProg progC2 emptyStore = some (runC2.1, runC2.2) ∧ StoreOrder runC2.1 :=
  ⟨by decide, built_heap_order progC2 runC2.1 runC2.2 (by decide)⟩

/-- C6: melding two non-empty built heaps of different sizes sums the
sizes, flips the smaller heap's own shared activity flag to `false`,
leaves the larger heap's flag unchanged, and changes no node's `active`
field — so exactly the nodes sharing the smaller heap's flag are demoted. -/
theorem meld_demotes_smaller (p q : HProg) (st1 st2 : Store) (A B : Sfib) (ra rb : Nat)
    (hp : runProg p emptyStore = some (st1, A))
    (hq : runProg q st1 = some (st2, B))
    (hra : A.root = some ra) (hrb : B.root = some rb)
    (_hsz : A.size ≠ B.size) :
    ∃ st' h', Sfib.meld st2 A B = some (st', h') ∧
      h'.size = A.size + B.size ∧
      (∀ i, (st'.getNode i).active = (st2.getNode i).active) ∧
      (A.size < B.size →
        st'.getFlag A.active = false ∧ st'.getFlag B.active = st2.getFlag B.active) ∧
      (B.size < A.size →
        st'.getFlag B.active = false ∧ st'.getFlag A.active = st2.getFlag A.active) := by
  obtain ⟨hso1, hokA, hn1, hf1, haA⟩ := runProg_ok p emptyStore st1 A storeOrder_empty hp
  obtain ⟨hso2, hokB, hn2, hf2, haB⟩ := runProg_ok q st1 st2 B hso1 hq
  have hne : A.active ≠ B.active := by
    have h1 : A.active < st1.flags.length := hokA.2.2.2
    omega
  obtain ⟨hsize, hactive, hfm, hroot⟩ := meldCore_snd st2 A B ra rb
  refine ⟨(meldCore st2 A B ra rb).1, (meldCore st2 A B ra rb).2,
    meld_eq_core st2 A B ra rb hra hrb hokA.1, hsize, ?_, ?_, ?_⟩
  · intro i
    rw [meldCore_fst, (getNode_meldLink _ _ _ i).2.1, getNode_meldFlag]
  · intro hlt
    rw [meldCore_fst, getFlag_meldLink, getFlag_meldLink]
    unfold meldFlag
    rw [if_pos (le_of_lt hlt)]
    exact ⟨Store.getFlag_setFlag_false_self st2 A.active,
      Store.getFlag_setFlag_ne st2 A.active false B.active hne⟩
  · intro hlt
    rw [meldCore_fst, getFlag_meldLink, getFlag_meldLink]
    unfold meldFlag
    rw [if_neg (by omega)]
    exact ⟨Store.getFlag_setFlag_false_self st2 B.active,
      Store.getFlag_setFlag_ne st2 B.active false A.active (Ne.symm hne)⟩

def progC6A : HProg := .ins 5 .empty

def progC6B : HProg := .ins 2 (.ins 7 .empty)

def runC6A : Store × Sfib := (runProg progC6A emptyStore).getD (emptyStore, default)

def runC6B : Store × Sfib := (runProg progC6B runC6A.1).getD (emptyStore, default)

/-- Witness for C6: a 1-element heap melded with a 2-element heap. -/
theorem meld_demotes_smaller_witness :
    (runProg progC6A emptyStore = some (runC6A.1, runC6A.2) ∧
     runProg progC6B runC6A.1 = some (runC6B.1, runC6B.2) ∧
     runC6A.2.root = some ((runC6A.2.root).getD 0) ∧
     runC6B.2.root = some ((runC6B.2.root).getD 0) ∧
     runC6A.2.size ≠ runC6B.2.size) ∧
    (∃ st' h', Sfib.meld runC6B.1 runC6A.2 runC6B.2 = some (st', h') ∧
      h'.size = runC6A.2.size + runC6B.2.size ∧
      (∀ i, (st'.getNode i).active = (runC6B.1.getNode i).active) ∧
      (runC6A.2.size < runC6B.2.size →
        st'.getFlag runC6A.2.active = false ∧
        st'.getFlag runC6B.2.active = runC6B.1.getFlag runC6B.2.active) ∧
      (runC6B.2.size < runC6A.2.size →
        st'.getFlag runC6B.2.active = false ∧
        st'.getFlag runC6A.2.active = runC6B.1.getFlag runC6A.2.active)) :=
  ⟨⟨by decide, by decide, by decide, by decide, by decide⟩,
   meld_demotes_smaller progC6A progC6B runC6A.1 runC6B.1 runC6A.2 runC6B.2
     ((runC6A.2.root).getD 0) ((runC6B.2.root).getD 0)
     (by decide) (by decide) (by decide) (by decide) (by decide)⟩

/-- C10: melding two non-empty built heaps of exactly equal size flips the
receiving heap's (`self`'s) shared activity flag to `false` and leaves the
argument heap's flag unchanged — a size tie demotes the callee's node
set. -/
theorem meld_tie_demotes_self (p q : HProg) (st1 st2 : Store) (A B : Sfib) (ra rb : Nat)
    (hp : runProg p emptyStore = some (st1, A))
    (hq : runProg q st1 = some (st2, B))
    (hra : A.root = some ra) (hrb : B.root = some rb)
    (hsz : A.size = B.size) :
    ∃ st' h', Sfib.meld st2 A B = some (st', h') ∧
      st'.getFlag A.active = false ∧
      st'.getFlag B.active = st2.getFlag B.active := by
  obtain ⟨hso1, hokA, hn1, hf1, haA⟩ := runProg_ok p emptyStore st1 A storeOrder_empty hp
  obtain ⟨hso2, hokB, hn2, hf2, haB⟩ := runProg_ok q st1 st2 B hso1 hq
  have hne : A.active ≠ B.active := by
    have h1 : A.active < st1.flags.length := hokA.2.2.2
    omega
  refine ⟨(meldCore st2 A B ra rb).1, (meldCore st2 A B ra rb).2,
    meld_eq_core st2 A B ra rb hra hrb hokA.1, ?_, ?_⟩
  · rw [meldCore_fst, getFlag_meldLink]
    unfold meldFlag
    rw [if_pos (le_of_eq hsz)]
    exact Store.getFlag_setFlag_false_self st2 A.active
  · rw [meldCore_fst, getFlag_meldLink]
    unfold meldFlag
    rw [if_pos (le_of_eq hsz)]
    exact Store.getFlag_setFlag_ne st2 A.active false B.active hne

def progC10A : HProg := .ins 5 .empty

def progC10B : HProg := .ins 2 .empty

def runC10A : Store × Sfib := (runProg progC10A emptyStore).getD (emptyStore, default)

def runC10B : Store × Sfib := (runProg progC10B runC10A.1).getD (emptyStore, default)

/-- Witness for C10: two 1-element heaps of equal size. -/
theorem meld_tie_demotes_self_witness :
    (runProg progC10A emptyStore = some (runC10A.1, runC10A.2) ∧
     runProg progC10B runC10A.1 = some (runC10B.1, runC10B.2) ∧
     runC10A.2.root = some ((runC10A.2.root).getD 0) ∧
     runC10B.2.root = some ((runC10B.2.root).getD 0) ∧
     runC10A.2.size = runC10B.2.size) ∧
    (∃ st' h', Sfib.meld runC10B.1 runC10A.2 runC10B.2 = some (st', h') ∧
      st'.getFlag runC10A.2.active = false ∧
      st'.getFlag runC10B.2.active = runC10B.1.getFlag runC10B.2.active) :=
  ⟨⟨by decide, by decide, by decide, by decide, by decide⟩,
   meld_tie_demotes_self progC10A progC10B runC10A.1 runC10B.1 runC10A.2 runC10B.2
     ((runC10A.2.root).getD 0) ((runC10B.2.root).getD 0)
     (by decide) (by decide) (by decide) (by decide) (by decide)⟩
